import Mathlib

/-!
Shallow embedding of `src/models/rpn_utils.py` (VoxNet) and proofs of the
spec's claims about it.

Box sets are modelled as `List Box` with exact rational coordinates
(`ℚ` stands in for the float values; all the numpy arithmetic involved is
elementwise +, -, *, /, max, min, comparisons).  Vectorised numpy
expressions over the rows of an `(n, 4)` array are embedded as per-row
functions mapped over the list, which is faithful because every statement
in the source operates row-independently.  The anchor-template generator
`generate_anchors` involves `np.sqrt`, so that one function is embedded
over `ℝ` further below.
-/

/-- One row of an `(n, 4)` anchor array: fields `c0..c3` are columns
`0..3` of the numpy array (center form: x_ctr, y_ctr, w, h; corner form:
x_min, y_min, x_max, y_max). -/
structure Box where
  c0 : ℚ
  c1 : ℚ
  c2 : ℚ
  c3 : ℚ
  deriving DecidableEq, Repr

/-- Row action of `anchors_whctrs_to_minmax` (rpn_utils.py lines 14-20):
`anchors[:,0] -= 0.5*anchors[:,2]`, `anchors[:,1] -= 0.5*anchors[:,3]`,
then `anchors[:,2] += anchors[:,0]`, `anchors[:,3] += anchors[:,1]`,
where the last two additions read the already-updated columns 0 and 1. -/
def whctrs_to_minmax_row (b : Box) : Box :=
  let x0 := b.c0 - (1/2) * b.c2
  let y0 := b.c1 - (1/2) * b.c3
  { c0 := x0, c1 := y0, c2 := b.c2 + x0, c3 := b.c3 + y0 }

/-- `anchors_whctrs_to_minmax(anchors, in_place)` (rpn_utils.py lines 3-22).
The result is the pair (returned array, state of the caller's array after
the call): with `in_place = False` the function first does
`anchors = np.copy(anchors)` and mutates only the copy, so the caller's
array is unchanged; with `in_place = True` the caller's array is the
mutated one. -/
def anchors_whctrs_to_minmax (anchors : List Box) (in_place : Bool) :
    List Box × List Box :=
  let r := anchors.map whctrs_to_minmax_row
  (r, if in_place then r else anchors)

/-- `anchors_minmax_to_whctrs(anchors, in_place)` (rpn_utils.py lines 24-41).

The source contains a slice typo: line 34 reads
`anchors[:,2] = anchors[:2] - anchors[:,0]` — `anchors[:2]` is the first
two ROWS (shape `(min 2 n, 4)`), not column 2.  Under numpy broadcasting,
for an `(n, 4)` input:
* the subtraction `anchors[:2] - anchors[:,0]` aligns trailing dimensions
  `4` and `n`, so it raises "operands could not be broadcast together"
  unless `n = 1` or `n = 4`;
* when `n = 1` or `n = 4` the subtraction yields a 2-D array of shape
  `(min 2 n, 4)`, and the assignment into `anchors[:,2]` (shape `(n,)`)
  then raises "could not broadcast input array", because a 2-D value
  never broadcasts into a 1-D destination of width `n ∈ {1, 4}`.
So every call raises before any element of the array is written.  The
embedding returns (raised error, state of the caller's array after the
call), the latter always equal to the input. -/
def anchors_minmax_to_whctrs (anchors : List Box) (in_place : Bool) :
    Except String (List Box) × List Box :=
  let n := anchors.length
  if n = 1 ∨ n = 4 then
    (Except.error "could not broadcast input array into output shape", anchors)
  else
    (Except.error "operands could not be broadcast together", anchors)

/-- Modelled from the spec (§4.1 `toCenterForm`), which records the
intended behaviour of `anchors_minmax_to_whctrs`: width = x_max − x_min,
height = y_max − y_min, then x_center = x_min + width/2,
y_center = y_min + height/2. -/
def minmax_to_whctrs_spec_row (b : Box) : Box :=
  let w := b.c2 - b.c0
  let h := b.c3 - b.c1
  { c0 := b.c0 + w / 2, c1 := b.c1 + h / 2, c2 := w, c3 := h }

/-- Spec-level round trip on one box: converting center form to corner
form and back (by the spec's intended inverse) is the identity. -/
lemma spec_round_trip_row (b : Box) :
    minmax_to_whctrs_spec_row (whctrs_to_minmax_row b) = b := by
  simp only [whctrs_to_minmax_row, minmax_to_whctrs_spec_row]
  cases b with
  | mk c0 c1 c2 c3 => simp only [Box.mk.injEq]; constructor <;> [ring; constructor] <;>
      [ring; constructor] <;> [ring; ring]

/-- C1: Round-trip `toCenterForm(toMinMax(B)) == B`.  The code violates
this for every input: `anchors_minmax_to_whctrs` raises a numpy broadcast
error (slice typo `anchors[:2]` for `anchors[:,2]`) on the well-formed
center-form set `B = [(1, 1, 2, 2)]`, while the spec-intended inverse
(`minmax_to_whctrs_spec_row`) does round-trip every box exactly. -/
theorem C1_roundtrip_code_bug :
    (anchors_minmax_to_whctrs
        (anchors_whctrs_to_minmax [⟨1, 1, 2, 2⟩] false).1 false).1 =
      Except.error "could not broadcast input array into output shape" ∧
    ∀ a : List Box,
      (a.map whctrs_to_minmax_row).map minmax_to_whctrs_spec_row = a := by
  refine ⟨rfl, ?_⟩
  intro a
  rw [List.map_map]
  conv_rhs => rw [← List.map_id a]
  exact List.map_congr_left (fun b _ => spec_round_trip_row b)

/-- C2: `toCenterForm` on a corner-form set should return width
`x_max − x_min`, height `y_max − y_min`, center `min + extent/2`.  The
code instead raises a broadcast error on every input (slice typo on
rpn_utils.py lines 34-35), here evaluated at `[(0, 0, 10, 10)]`; the
spec-intended per-row conversion sends `(0, 0, 10, 10)` to
`(5, 5, 10, 10)` as the claim describes. -/
theorem C2_toCenterForm_code_bug :
    (∃ e, (anchors_minmax_to_whctrs [⟨0, 0, 10, 10⟩] false).1 =
      Except.error e) ∧
    minmax_to_whctrs_spec_row ⟨0, 0, 10, 10⟩ = ⟨5, 5, 10, 10⟩ := by
  constructor
  · exact ⟨_, rfl⟩
  · simp only [minmax_to_whctrs_spec_row]; norm_num

/-- C10: with `inPlace = false` both conversions must return the converted
set computed on a copy and leave the input unchanged.  The copy/no-mutation
half holds (both functions leave the caller's array untouched when
`in_place = false`, and `anchors_whctrs_to_minmax` returns the conversion
of the copy), but `anchors_minmax_to_whctrs` never returns a converted
result at all: at the failing input `[(0, 0, 4, 4)]` it raises a broadcast
error (the line-34/35 slice typo). -/
theorem C10_inplace_code_bug :
    (∀ a : List Box, anchors_whctrs_to_minmax a false =
      (a.map whctrs_to_minmax_row, a)) ∧
    (∀ a : List Box, (anchors_minmax_to_whctrs a false).2 = a) ∧
    (∃ e, (anchors_minmax_to_whctrs [⟨0, 0, 4, 4⟩] false).1 =
      Except.error e) := by
  refine ⟨fun a => rfl, fun a => ?_, ⟨_, rfl⟩⟩
  by_cases h : a.length = 1 ∨ a.length = 4 <;>
    simp [anchors_minmax_to_whctrs, h]

/-! ## Pairwise IoU, host-numeric variants (rpn_utils.py lines 96-224) -/

/-- Minimal model of a numpy ndarray of rationals: its shape and its
(flattened, C-order) data.  Only what the IoU results need. -/
structure NDArrayQ where
  shape : List Nat
  data : List ℚ
  deriving DecidableEq, Repr

/-- `np.squeeze` on a shape: removes every axis of extent 1. -/
def np_squeeze_shape (s : List Nat) : List Nat := s.filter (fun d => d != 1)

/-- `np.reshape(np.tile(bb, [1, n2]), (n1*n2, 4))` for an `(n1, 4)` array
`bb`: row `i*n2 + t` (for `t < n2`) is row `i` of `bb`. -/
def tile_rows_left (bb : List Box) (n2 : Nat) : List Box :=
  (bb.map (List.replicate n2)).flatten

/-- `np.tile(bb, [n1, 1])` for an `(n2, 4)` array `bb`: `n1` concatenated
copies of the rows of `bb`. -/
def tile_rows_right (bb : List Box) (n1 : Nat) : List Box :=
  (List.replicate n1 bb).flatten

/-- `x1` of `numpy_IoU_xyctrs` (lines 128-130) for one row pair. -/
def xy_x1 (a b : Box) : ℚ := max (a.c0 - (1/2)*a.c2) (b.c0 - (1/2)*b.c2)

/-- `y1` (lines 131-133). -/
def xy_y1 (a b : Box) : ℚ := max (a.c1 - (1/2)*a.c3) (b.c1 - (1/2)*b.c3)

/-- `x2` (lines 134-136). -/
def xy_x2 (a b : Box) : ℚ := min (a.c0 + (1/2)*a.c2) (b.c0 + (1/2)*b.c2)

/-- `y2` (lines 137-139). -/
def xy_y2 (a b : Box) : ℚ := min (a.c1 + (1/2)*a.c3) (b.c1 + (1/2)*b.c3)

/-- `w = x2 - x1` (line 141). -/
def xy_w (a b : Box) : ℚ := xy_x2 a b - xy_x1 a b

/-- `h = y2 - y1` (line 142). -/
def xy_h (a b : Box) : ℚ := xy_y2 a b - xy_y1 a b

/-- `inter = w*h` (line 144). -/
def xy_inter (a b : Box) : ℚ := xy_w a b * xy_h a b

/-- `aarea = bb[:,3]*bb[:,2]` (lines 146-147): height times width. -/
def xy_area (a : Box) : ℚ := a.c3 * a.c2

/-- `denom = aarea + barea - inter` (line 149). -/
def xy_denom (a b : Box) : ℚ := xy_area a + xy_area b - xy_inter a b

/-- One entry of `numpy_IoU_xyctrs` (lines 128-156): the placeholder
`denom[mask] = 0.1` substitution, the division, then the overwrites
`IoU[mask] = 0`, `IoU[w <= 0] = 0`, `IoU[h <= 0] = 0` in source order. -/
def iou_xyctrs_pair (a b : Box) : ℚ :=
  let denom := if xy_denom a b = 0 then 1/10 else xy_denom a b
  let iou0 := xy_inter a b / denom
  let iou1 := if xy_denom a b = 0 then 0 else iou0
  let iou2 := if xy_w a b ≤ 0 then 0 else iou1
  if xy_h a b ≤ 0 then 0 else iou2

/-- `numpy_IoU_xyctrs(bb1, bb2)` (lines 96-158) on box sets (a bare
single box corresponds to the one-element set, which is what the
`ndim == 1` reshape on lines 113-116 produces).  The elementwise
vectorised arithmetic over the two tiled `(n1*n2, 4)` row arrays is the
per-row-pair function `iou_xyctrs_pair`; the final
`np.squeeze(np.reshape(IoU, (n1, n2)))` keeps the data and squeezes the
unit axes out of the shape. -/
def numpy_IoU_xyctrs (bb1 bb2 : List Box) : NDArrayQ :=
  let n1 := bb1.length
  let n2 := bb2.length
  let bb1_arr := tile_rows_left bb1 n2
  let bb2_arr := tile_rows_right bb2 n1
  { shape := np_squeeze_shape [n1, n2],
    data := (bb1_arr.zip bb2_arr).map (fun p => iou_xyctrs_pair p.1 p.2) }

/-- `x1 = max(bb1[:,0], bb2[:,0])` of `numpy_IoU_minmax` (lines 194-196). -/
def mm_x1 (a b : Box) : ℚ := max a.c0 b.c0

/-- `y1` (lines 197-199). -/
def mm_y1 (a b : Box) : ℚ := max a.c1 b.c1

/-- `x2 = min(bb1[:,2], bb2[:,2])` (lines 200-202). -/
def mm_x2 (a b : Box) : ℚ := min a.c2 b.c2

/-- `y2` (lines 203-205). -/
def mm_y2 (a b : Box) : ℚ := min a.c3 b.c3

/-- `w = x2 - x1` (line 207). -/
def mm_w (a b : Box) : ℚ := mm_x2 a b - mm_x1 a b

/-- `h = y2 - y1` (line 208). -/
def mm_h (a b : Box) : ℚ := mm_y2 a b - mm_y1 a b

/-- `inter = w*h` (line 210). -/
def mm_inter (a b : Box) : ℚ := mm_w a b * mm_h a b

/-- `aarea = (bb[:,3]-bb[:,1])*(bb[:,2]-bb[:,0])` (lines 212-213). -/
def mm_area (a : Box) : ℚ := (a.c3 - a.c1) * (a.c2 - a.c0)

/-- `denom = aarea + barea - inter` (line 215). -/
def mm_denom (a b : Box) : ℚ := mm_area a + mm_area b - mm_inter a b

/-- One entry of `numpy_IoU_minmax` (lines 194-222), same masking order
as the center-form variant. -/
def iou_minmax_pair (a b : Box) : ℚ :=
  let denom := if mm_denom a b = 0 then 1/10 else mm_denom a b
  let iou0 := mm_inter a b / denom
  let iou1 := if mm_denom a b = 0 then 0 else iou0
  let iou2 := if mm_w a b ≤ 0 then 0 else iou1
  if mm_h a b ≤ 0 then 0 else iou2

/-- `numpy_IoU_minmax(bb1, bb2)` (lines 161-224). -/
def numpy_IoU_minmax (bb1 bb2 : List Box) : NDArrayQ :=
  let n1 := bb1.length
  let n2 := bb2.length
  let bb1_arr := tile_rows_left bb1 n2
  let bb2_arr := tile_rows_right bb2 n1
  { shape := np_squeeze_shape [n1, n2],
    data := (bb1_arr.zip bb2_arr).map (fun p => iou_minmax_pair p.1 p.2) }

/-! ### Flat-index bookkeeping for the tiled row arrays -/

/-- Element `i*m + j` of the concatenation of lists that all have length
`m` is element `j` of list `i`. -/
lemma flatten_getElem_grid {α : Type} (m : Nat) :
    ∀ (l : List (List α)) (i j : Nat), (∀ x ∈ l, x.length = m) →
      (hi : i < l.length) → j < m →
      l.flatten[i * m + j]? = (l[i])[j]? := by
  intro l
  induction l with
  | nil => intro i j _ hi _; exact absurd hi (by simp)
  | cons x t ih =>
    intro i j hlen hi hj
    have hx : x.length = m := hlen x (by simp)
    cases i with
    | zero =>
      simp only [List.flatten_cons, List.getElem?_append, Nat.zero_mul,
        Nat.zero_add]
      rw [if_pos (by omega)]
      simp
    | succ n =>
      have hidx : (n + 1) * m + j = x.length + (n * m + j) := by
        rw [hx]; ring
      simp only [List.flatten_cons, List.getElem?_append, hidx]
      rw [if_neg (by omega)]
      have : x.length + (n * m + j) - x.length = n * m + j := by omega
      rw [this, ih n j (fun y hy => hlen y (by simp [hy]))
        (by simpa using hi) hj]
      simp

/-- Row `i*n2 + j` of the left tiled array is row `i` of the input. -/
lemma tile_rows_left_getElem (bb : List Box) (n2 i j : Nat)
    (hi : i < bb.length) (hj : j < n2) :
    (tile_rows_left bb n2)[i * n2 + j]? = some bb[i] := by
  rw [tile_rows_left,
    flatten_getElem_grid n2 (bb.map (List.replicate n2)) i j
      (by intro x hx; rcases List.mem_map.mp hx with ⟨b, _, rfl⟩
          exact List.length_replicate ..)
      (by simpa using hi) hj]
  rw [List.getElem_map]
  simp [hj]

/-- Row `i*n2 + j` of the right tiled array is row `j` of the input. -/
lemma tile_rows_right_getElem (bb : List Box) (n1 i j : Nat)
    (hi : i < n1) (hj : j < bb.length) :
    (tile_rows_right bb n1)[i * bb.length + j]? = some bb[j] := by
  rw [tile_rows_right,
    flatten_getElem_grid bb.length (List.replicate n1 bb) i j
      (by intro x hx; rw [List.eq_of_mem_replicate hx])
      (by simpa using hi) hj]
  rw [List.getElem_replicate]
  simp [hj]

/-- Entry `(i, j)` of the flattened pairwise grid built from the two
tiled row arrays is the pair function at rows `i` and `j`. -/
lemma pair_grid_getElem (f : Box → Box → ℚ) (A B : List Box) (i j : Nat)
    (hi : i < A.length) (hj : j < B.length) :
    (((tile_rows_left A B.length).zip
        (tile_rows_right B A.length)).map
      (fun p => f p.1 p.2))[i * B.length + j]? = some (f A[i] B[j]) := by
  rw [List.getElem?_map]
  have hz : ((tile_rows_left A B.length).zip
      (tile_rows_right B A.length))[i * B.length + j]? = some (A[i], B[j]) :=
    List.getElem?_zip_eq_some.mpr
      ⟨tile_rows_left_getElem A B.length i j hi hj,
       tile_rows_right_getElem B A.length i j hi hj⟩
  rw [hz]
  rfl

/-- Entry lemma for the center-form IoU. -/
lemma numpy_IoU_xyctrs_entry (A B : List Box) (i j : Nat)
    (hi : i < A.length) (hj : j < B.length) :
    (numpy_IoU_xyctrs A B).data[i * B.length + j]? =
      some (iou_xyctrs_pair A[i] B[j]) :=
  pair_grid_getElem iou_xyctrs_pair A B i j hi hj

/-- Entry lemma for the corner-form IoU. -/
lemma numpy_IoU_minmax_entry (A B : List Box) (i j : Nat)
    (hi : i < A.length) (hj : j < B.length) :
    (numpy_IoU_minmax A B).data[i * B.length + j]? =
      some (iou_minmax_pair A[i] B[j]) :=
  pair_grid_getElem iou_minmax_pair A B i j hi hj

/-! ### Degenerate pairs (C3) -/

/-- The degenerate-entry analysis of `iou_xyctrs_pair`: any of the three
mask conditions forces the entry to 0. -/
lemma iou_xyctrs_pair_degenerate (a b : Box)
    (h : xy_w a b ≤ 0 ∨ xy_h a b ≤ 0 ∨ xy_denom a b = 0) :
    iou_xyctrs_pair a b = 0 := by
  simp only [iou_xyctrs_pair]
  rcases h with hw | hh | hd
  · split_ifs <;> simp_all
  · split_ifs <;> simp_all
  · split_ifs <;> simp_all

/-- C3: any pair with computed intersection width or height `≤ 0`, or
with union denominator exactly `0`, yields entry 0 in
`numpy_IoU_xyctrs`, and the denominator actually divided by is the
nonzero placeholder `0.1` whenever the true denominator is zero, so no
division by zero occurs. -/
theorem C3_degenerate_pairs_zero (A B : List Box) (i j : Nat)
    (hi : i < A.length) (hj : j < B.length)
    (hdeg : xy_w A[i] B[j] ≤ 0 ∨ xy_h A[i] B[j] ≤ 0 ∨
      xy_denom A[i] B[j] = 0) :
    (numpy_IoU_xyctrs A B).data[i * B.length + j]? = some 0 ∧
    (if xy_denom A[i] B[j] = 0 then (1 : ℚ)/10
      else xy_denom A[i] B[j]) ≠ 0 := by
  constructor
  · rw [numpy_IoU_xyctrs_entry A B i j hi hj,
      iou_xyctrs_pair_degenerate A[i] B[j] hdeg]
  · split_ifs with h
    · norm_num
    · exact h

/-- Witness for C3 at a concrete degenerate input: two zero-size boxes
at the origin (`w = 0`, and the union denominator is also `0`). -/
theorem C3_degenerate_pairs_zero_witness :
    (numpy_IoU_xyctrs [⟨0, 0, 0, 0⟩] [⟨0, 0, 0, 0⟩]).data[0]? = some 0 ∧
    (if xy_denom (⟨0, 0, 0, 0⟩ : Box) ⟨0, 0, 0, 0⟩ = 0 then (1 : ℚ)/10
      else xy_denom ⟨0, 0, 0, 0⟩ ⟨0, 0, 0, 0⟩) ≠ 0 := by
  have h := C3_degenerate_pairs_zero [⟨0, 0, 0, 0⟩] [⟨0, 0, 0, 0⟩] 0 0
    (by norm_num) (by norm_num)
    (by left; simp [xy_w, xy_x1, xy_x2])
  simpa using h

/-! ### Result shape (C7) -/

/-- The claim "the result has shape `(n1, n2)`" is false: `np.squeeze`
also squeezes a `(1, 2)` result down to shape `(2,)`, as at the concrete
input below (one box against two boxes). -/
theorem C7_shape_counterexample :
    (numpy_IoU_xyctrs [⟨0, 0, 2, 2⟩] [⟨0, 0, 2, 2⟩, ⟨5, 5, 2, 2⟩]).shape
      ≠ [1, 2] := by
  decide

/-- C7 (amended): both IoU variants return the `(n1, n2)` matrix with
`np.squeeze` applied, so the shape is `[n1, n2]` with every unit axis
removed; the result is a scalar (empty shape) exactly when both inputs
are single boxes. -/
theorem C7_shape_squeeze (A B : List Box) :
    (numpy_IoU_xyctrs A B).shape =
      np_squeeze_shape [A.length, B.length] ∧
    (numpy_IoU_minmax A B).shape =
      np_squeeze_shape [A.length, B.length] ∧
    (np_squeeze_shape [A.length, B.length] = [] ↔
      A.length = 1 ∧ B.length = 1) := by
  refine ⟨rfl, rfl, ?_⟩
  constructor
  · intro h
    simp only [np_squeeze_shape, List.filter_eq_nil_iff] at h
    constructor
    · have := h A.length (by simp)
      simpa using this
    · have := h B.length (by simp)
      simpa using this
  · rintro ⟨h1, h2⟩
    simp [np_squeeze_shape, h1, h2]

/-! ### Symmetry (C8) -/

/-- `iou_xyctrs_pair` is symmetric in its two boxes. -/
lemma iou_xyctrs_pair_comm (a b : Box) :
    iou_xyctrs_pair a b = iou_xyctrs_pair b a := by
  have hw : xy_w a b = xy_w b a := by
    simp only [xy_w, xy_x1, xy_x2]; rw [max_comm, min_comm]
  have hh : xy_h a b = xy_h b a := by
    simp only [xy_h, xy_y1, xy_y2]; rw [max_comm, min_comm]
  have hint : xy_inter a b = xy_inter b a := by
    rw [xy_inter, xy_inter, hw, hh]
  have hd : xy_denom a b = xy_denom b a := by
    rw [xy_denom, xy_denom, hint, add_comm (xy_area a)]
  simp only [iou_xyctrs_pair, hw, hh, hint, hd]

/-- C8: `numpy_IoU_xyctrs(A, B)` is the transpose of
`numpy_IoU_xyctrs(B, A)`: entry `(i, j)` of the first equals entry
`(j, i)` of the second. -/
theorem C8_symmetry (A B : List Box) (i j : Nat)
    (hi : i < A.length) (hj : j < B.length) :
    (numpy_IoU_xyctrs A B).data[i * B.length + j]? =
      (numpy_IoU_xyctrs B A).data[j * A.length + i]? := by
  rw [numpy_IoU_xyctrs_entry A B i j hi hj,
    numpy_IoU_xyctrs_entry B A j i hj hi,
    iou_xyctrs_pair_comm]

/-- Witness for C8 at a concrete input pair. -/
theorem C8_symmetry_witness :
    (numpy_IoU_xyctrs [⟨0, 0, 2, 2⟩] [⟨1, 0, 2, 4⟩, ⟨9, 9, 2, 2⟩]).data[1]? =
      (numpy_IoU_xyctrs [⟨1, 0, 2, 4⟩, ⟨9, 9, 2, 2⟩] [⟨0, 0, 2, 2⟩]).data[1]? := by
  have h := C8_symmetry [⟨0, 0, 2, 2⟩] [⟨1, 0, 2, 4⟩, ⟨9, 9, 2, 2⟩] 0 1
    (by norm_num) (by norm_num)
  simpa using h

/-! ### Range of the IoU values (C9) -/

/-- If `0 < I`, `I ≤ A` and `I ≤ B`, then `I / (A + B - I) ∈ [0, 1]`. -/
lemma iou_div_bounds (I A B : ℚ) (hI : 0 < I) (hIA : I ≤ A) (hIB : I ≤ B) :
    0 ≤ I / (A + B - I) ∧ I / (A + B - I) ≤ 1 := by
  have hd : 0 < A + B - I := by linarith
  exact ⟨div_nonneg hI.le hd.le, (div_le_one hd).mpr (by linarith)⟩

/-- Every value of `iou_xyctrs_pair` lies in `[0, 1]`, for arbitrary
(including negative-extent) boxes. -/
lemma iou_xyctrs_pair_bounds (a b : Box) :
    0 ≤ iou_xyctrs_pair a b ∧ iou_xyctrs_pair a b ≤ 1 := by
  simp only [iou_xyctrs_pair]
  split_ifs with hh hw hd
  · norm_num
  · norm_num
  · norm_num
  · -- non-degenerate: 0 < w, 0 < h, denom ≠ 0
    have hw' : 0 < xy_w a b := lt_of_not_ge hw
    have hh' : 0 < xy_h a b := lt_of_not_ge hh
    have hwa : xy_w a b ≤ a.c2 := by
      have h1 : xy_x2 a b ≤ a.c0 + (1/2)*a.c2 := min_le_left _ _
      have h2 : a.c0 - (1/2)*a.c2 ≤ xy_x1 a b := le_max_left _ _
      rw [xy_w]; linarith
    have hwb : xy_w a b ≤ b.c2 := by
      have h1 : xy_x2 a b ≤ b.c0 + (1/2)*b.c2 := min_le_right _ _
      have h2 : b.c0 - (1/2)*b.c2 ≤ xy_x1 a b := le_max_right _ _
      rw [xy_w]; linarith
    have hha : xy_h a b ≤ a.c3 := by
      have h1 : xy_y2 a b ≤ a.c1 + (1/2)*a.c3 := min_le_left _ _
      have h2 : a.c1 - (1/2)*a.c3 ≤ xy_y1 a b := le_max_left _ _
      rw [xy_h]; linarith
    have hhb : xy_h a b ≤ b.c3 := by
      have h1 : xy_y2 a b ≤ b.c1 + (1/2)*b.c3 := min_le_right _ _
      have h2 : b.c1 - (1/2)*b.c3 ≤ xy_y1 a b := le_max_right _ _
      rw [xy_h]; linarith
    have hIpos : 0 < xy_inter a b := mul_pos hw' hh'
    have hIa : xy_inter a b ≤ xy_area a := by
      rw [xy_inter, xy_area]
      nlinarith [hw', hh', hwa, hha]
    have hIb : xy_inter a b ≤ xy_area b := by
      rw [xy_inter, xy_area]
      nlinarith [hw', hh', hwb, hhb]
    have := iou_div_bounds (xy_inter a b) (xy_area a) (xy_area b)
      hIpos hIa hIb
    simpa [xy_denom, sub_eq_iff_eq_add] using this

/-- Every value of `iou_minmax_pair` lies in `[0, 1]`, for arbitrary
(including inverted `max < min`) boxes. -/
lemma iou_minmax_pair_bounds (a b : Box) :
    0 ≤ iou_minmax_pair a b ∧ iou_minmax_pair a b ≤ 1 := by
  simp only [iou_minmax_pair]
  split_ifs with hh hw hd
  · norm_num
  · norm_num
  · norm_num
  · have hw' : 0 < mm_w a b := lt_of_not_ge hw
    have hh' : 0 < mm_h a b := lt_of_not_ge hh
    have hwa : mm_w a b ≤ a.c2 - a.c0 := by
      have h1 : mm_x2 a b ≤ a.c2 := min_le_left _ _
      have h2 : a.c0 ≤ mm_x1 a b := le_max_left _ _
      rw [mm_w]; linarith
    have hwb : mm_w a b ≤ b.c2 - b.c0 := by
      have h1 : mm_x2 a b ≤ b.c2 := min_le_right _ _
      have h2 : b.c0 ≤ mm_x1 a b := le_max_right _ _
      rw [mm_w]; linarith
    have hha : mm_h a b ≤ a.c3 - a.c1 := by
      have h1 : mm_y2 a b ≤ a.c3 := min_le_left _ _
      have h2 : a.c1 ≤ mm_y1 a b := le_max_left _ _
      rw [mm_h]; linarith
    have hhb : mm_h a b ≤ b.c3 - b.c1 := by
      have h1 : mm_y2 a b ≤ b.c3 := min_le_right _ _
      have h2 : b.c1 ≤ mm_y1 a b := le_max_right _ _
      rw [mm_h]; linarith
    have hIpos : 0 < mm_inter a b := mul_pos hw' hh'
    have hIa : mm_inter a b ≤ mm_area a := by
      rw [mm_inter, mm_area]
      nlinarith [hw', hh', hwa, hha]
    have hIb : mm_inter a b ≤ mm_area b := by
      rw [mm_inter, mm_area]
      nlinarith [hw', hh', hwb, hhb]
    have := iou_div_bounds (mm_inter a b) (mm_area a) (mm_area b)
      hIpos hIa hIb
    simpa [mm_denom, sub_eq_iff_eq_add] using this

/-- C9: every entry of both host-numeric IoU results lies in `[0, 1]`,
for arbitrary real-valued boxes — including center-form boxes with
negative width/height and corner-form boxes with `max < min`, which give
entry 0 (zero overlap) rather than an error. -/
theorem C9_entries_in_unit_interval (A B : List Box) (i j : Nat)
    (hi : i < A.length) (hj : j < B.length) :
    (∃ v, (numpy_IoU_xyctrs A B).data[i * B.length + j]? = some v ∧
      0 ≤ v ∧ v ≤ 1) ∧
    (∃ v, (numpy_IoU_minmax A B).data[i * B.length + j]? = some v ∧
      0 ≤ v ∧ v ≤ 1) ∧
    (A[i].c2 < 0 → (numpy_IoU_xyctrs A B).data[i * B.length + j]? = some 0) := by
  refine ⟨⟨_, numpy_IoU_xyctrs_entry A B i j hi hj,
      iou_xyctrs_pair_bounds A[i] B[j]⟩,
    ⟨_, numpy_IoU_minmax_entry A B i j hi hj,
      iou_minmax_pair_bounds A[i] B[j]⟩, ?_⟩
  intro hneg
  rw [numpy_IoU_xyctrs_entry A B i j hi hj,
    iou_xyctrs_pair_degenerate A[i] B[j] ?_]
  left
  have h1 : xy_x2 A[i] B[j] ≤ A[i].c0 + (1/2)*A[i].c2 := min_le_left _ _
  have h2 : A[i].c0 - (1/2)*A[i].c2 ≤ xy_x1 A[i] B[j] := le_max_left _ _
  rw [xy_w]; linarith

/-- Witness for C9 at a concrete input, with a negative-width box in the
first set. -/
theorem C9_entries_in_unit_interval_witness :
    (∃ v, (numpy_IoU_xyctrs [⟨0, 0, -1, 2⟩] [⟨0, 0, 3, 3⟩]).data[0]? = some v ∧
      0 ≤ v ∧ v ≤ 1) ∧
    (∃ v, (numpy_IoU_minmax [⟨0, 0, -1, 2⟩] [⟨0, 0, 3, 3⟩]).data[0]? = some v ∧
      0 ≤ v ∧ v ≤ 1) ∧
    ((⟨0, 0, -1, 2⟩ : Box).c2 < 0 →
      (numpy_IoU_xyctrs [⟨0, 0, -1, 2⟩] [⟨0, 0, 3, 3⟩]).data[0]? = some 0) := by
  have h := C9_entries_in_unit_interval [⟨0, 0, -1, 2⟩] [⟨0, 0, 3, 3⟩] 0 0
    (by norm_num) (by norm_num)
  simpa using h

/-! ## Anchor tiling: `pad_anchors` (rpn_utils.py lines 43-63) -/

/-- The offset applied to one anchor of tile `(i, j)` by the two loops on
lines 57-60: `+= step_size_x*i` on column 0, `+= step_size_y*j` on
column 1. -/
def shift_box (b : Box) (dx dy : ℚ) : Box :=
  { b with c0 := b.c0 + dx, c1 := b.c1 + dy }

/-- `pad_anchors(input_anchors, n_tiles_x, n_tiles_y, step_size_x,
step_size_y)` (lines 43-63).  `np.tile(input_anchors,
reps=(n_tiles_x, n_tiles_y, 1, 1))` gives a 4-D array whose element
`(i, j, k, :)` is `input_anchors[k]`; the two loops offset columns 0/1
of the `i`-th x-slab and `j`-th y-slab; the final
`np.reshape(..., (n*nx*ny, 4))` flattens in C order, i.e. tile-x index
slowest, then tile-y, then anchor index.  No check on the (possibly
negative) step sizes. -/
def pad_anchors (input_anchors : List Box) (n_tiles_x n_tiles_y : Nat)
    (step_size_x step_size_y : ℚ) : List Box :=
  ((List.range n_tiles_x).map (fun (i : Nat) =>
    ((List.range n_tiles_y).map (fun (j : Nat) =>
      input_anchors.map (fun b =>
        shift_box b (step_size_x * (i : ℚ)) (step_size_y * (j : ℚ))))).flatten)).flatten

/-- A concatenation of lists that all have length `m` has length
`(number of lists) * m`. -/
lemma flatten_length_const {α : Type} (m : Nat) :
    ∀ l : List (List α), (∀ x ∈ l, x.length = m) →
      l.flatten.length = l.length * m := by
  intro l
  induction l with
  | nil => simp
  | cons x t ih =>
    intro h
    have hx : x.length = m := h x (by simp)
    have ht := ih (fun y hy => h y (by simp [hy]))
    simp only [List.flatten_cons, List.length_append, hx, ht,
      List.length_cons]
    ring

/-- Zero offsets do not move a box. -/
lemma shift_box_zero (b : Box) : shift_box b 0 0 = b := by
  cases b; simp [shift_box]

/-- Element access into `pad_anchors` at the flat index of tile `(i, j)`,
anchor `k`. -/
lemma pad_anchors_getElem (T : List Box) (nx ny : Nat) (sx sy : ℚ)
    (i j k : Nat) (hi : i < nx) (hj : j < ny) (hk : k < T.length) :
    (pad_anchors T nx ny sx sy)[(i * ny + j) * T.length + k]? =
      some (shift_box T[k] (sx * (i : ℚ)) (sy * (j : ℚ))) := by
  have hild : ∀ i' : Nat,
      (((List.range ny).map (fun (j' : Nat) =>
        T.map (fun b =>
          shift_box b (sx * (i' : ℚ)) (sy * (j' : ℚ))))).flatten).length =
        ny * T.length := by
    intro i'
    rw [flatten_length_const T.length _
      (by intro x hx; rcases List.mem_map.mp hx with ⟨j', _, rfl⟩
          exact List.length_map ..)]
    simp
  have hidx : (i * ny + j) * T.length + k =
      i * (ny * T.length) + (j * T.length + k) := by ring
  have hjk : j * T.length + k < ny * T.length := by
    calc j * T.length + k < j * T.length + T.length :=
          Nat.add_lt_add_left hk _
      _ = (j + 1) * T.length := by ring
      _ ≤ ny * T.length := Nat.mul_le_mul_right _ (Nat.succ_le_of_lt hj)
  rw [pad_anchors, hidx,
    flatten_getElem_grid (ny * T.length) _ i (j * T.length + k)
      (by intro x hx; rcases List.mem_map.mp hx with ⟨i', _, rfl⟩
          exact hild i')
      (by simpa using hi) hjk]
  rw [List.getElem_map, List.getElem_range,
    flatten_getElem_grid T.length _ j k
      (by intro x hx; rcases List.mem_map.mp hx with ⟨j', _, rfl⟩
          exact List.length_map ..)
      (by simpa using hj) hk]
  rw [List.getElem_map, List.getElem_range, List.getElem?_map]
  simp [hk]

/-- C6: `pad_anchors` returns `len(T) * nx * ny` boxes, ordered tile-x
slowest / tile-y next / anchor fastest; the box at the flat index of
tile `(i, j)`, anchor `k` is `T[k]` with `x_center` offset by
`i*step_size_x` and `y_center` by `j*step_size_y`; in particular the
tile-(0,0) block is `T` unshifted. -/
theorem C6_pad_anchors_tiling (T : List Box) (nx ny : Nat) (sx sy : ℚ)
    (i j k : Nat) (hi : i < nx) (hj : j < ny) (hk : k < T.length) :
    (pad_anchors T nx ny sx sy).length = T.length * nx * ny ∧
    (pad_anchors T nx ny sx sy)[(i * ny + j) * T.length + k]? =
      some (shift_box T[k] (sx * (i : ℚ)) (sy * (j : ℚ))) ∧
    (pad_anchors T nx ny sx sy)[k]? = some T[k] := by
  refine ⟨?_, pad_anchors_getElem T nx ny sx sy i j k hi hj hk, ?_⟩
  · rw [pad_anchors,
      flatten_length_const (ny * T.length) _ ?_]
    · simp; ring
    · intro x hx
      rcases List.mem_map.mp hx with ⟨i', _, rfl⟩
      rw [flatten_length_const T.length _
        (by intro y hy; rcases List.mem_map.mp hy with ⟨j', _, rfl⟩
            exact List.length_map ..)]
      simp
  · have h0 := pad_anchors_getElem T nx ny sx sy 0 0 k
      (lt_of_le_of_lt (Nat.zero_le i) hi)
      (lt_of_le_of_lt (Nat.zero_le j) hj) hk
    simpa [shift_box_zero] using h0

/-- Witness for C6 at a concrete input: one template box, a 2×2 grid,
strides 5 and 7, tile `(1, 1)`, anchor 0. -/
theorem C6_pad_anchors_tiling_witness :
    (pad_anchors [⟨1, 2, 3, 4⟩] 2 2 5 7).length = 1 * 2 * 2 ∧
    (pad_anchors [⟨1, 2, 3, 4⟩] 2 2 5 7)[(1 * 2 + 1) * 1 + 0]? =
      some (shift_box ⟨1, 2, 3, 4⟩ (5 * (1 : ℚ)) (7 * (1 : ℚ))) ∧
    (pad_anchors [⟨1, 2, 3, 4⟩] 2 2 5 7)[0]? = some ⟨1, 2, 3, 4⟩ := by
  have h := C6_pad_anchors_tiling [⟨1, 2, 3, 4⟩] 2 2 5 7 1 1 0
    (by norm_num) (by norm_num) (by norm_num)
  simpa using h

/-! ## Graph/batched IoU: `compute_IoU` (rpn_utils.py lines 227-276)

The tensorflow ops (`tf.tile`, `tf.reshape`, `tf.maximum`, `tf.minimum`,
`tf.nn.relu`, `tf.divide`) are modelled by the same exact arithmetic as
the numpy ones; the set sizes are the static lengths of the inputs. -/

/-- `tf.nn.relu` on one value. -/
def tf_relu (x : ℚ) : ℚ := max x 0

/-- One entry of `compute_IoU` (lines 252-274): interval bounds as in the
center-form numpy variant, then `w = x2 - x1 + 1`, `h = y2 - y1 + 1`,
both clamped by `tf.nn.relu`, areas `(bb[:,3] + 1) * (bb[:,2] + 1)`, and
an unguarded `tf.divide(inter, aarea + barea - inter)`. -/
def compute_IoU_pair (a b : Box) : ℚ :=
  let x1 := max (a.c0 - (1/2)*a.c2) (b.c0 - (1/2)*b.c2)
  let y1 := max (a.c1 - (1/2)*a.c3) (b.c1 - (1/2)*b.c3)
  let x2 := min (a.c0 + (1/2)*a.c2) (b.c0 + (1/2)*b.c2)
  let y2 := min (a.c1 + (1/2)*a.c3) (b.c1 + (1/2)*b.c3)
  let w := tf_relu (x2 - x1 + 1)
  let h := tf_relu (y2 - y1 + 1)
  let inter := w * h
  let aarea := (a.c3 + 1) * (a.c2 + 1)
  let barea := (b.c3 + 1) * (b.c2 + 1)
  inter / (aarea + barea - inter)

/-- `compute_IoU(bb1_arr, bb2_arr)` (lines 227-276): the same
tile/reshape pairing as the numpy variants, final result reshaped to
`(n1, n2)` with NO squeeze and no division-by-zero masking. -/
def compute_IoU (bb1 bb2 : List Box) : NDArrayQ :=
  let n1 := bb1.length
  let n2 := bb2.length
  let bb1_arr := tile_rows_left bb1 n2
  let bb2_arr := tile_rows_right bb2 n1
  { shape := [n1, n2],
    data := (bb1_arr.zip bb2_arr).map (fun p => compute_IoU_pair p.1 p.2) }

/-- Modelled from the spec's words for §4.6 `iouBatched`: width/height
are `x2 - x1 + 1` / `y2 - y1 + 1` with negative values clamped to zero
by a rectified-linear step, the two box areas use the matching `+1`
convention, and the result is `intersection / (area1 + area2 −
intersection)` with no division-by-zero guard. -/
def iouBatchedSpecPair (a b : Box) : ℚ :=
  let w1 := a.c2
  let h1 := a.c3
  let w2 := b.c2
  let h2 := b.c3
  let x1 := max (a.c0 - w1/2) (b.c0 - w2/2)
  let y1 := max (a.c1 - h1/2) (b.c1 - h2/2)
  let x2 := min (a.c0 + w1/2) (b.c0 + w2/2)
  let y2 := min (a.c1 + h1/2) (b.c1 + h2/2)
  let w := max (x2 - x1 + 1) 0
  let h := max (y2 - y1 + 1) 0
  let inter := w * h
  let area1 := (w1 + 1) * (h1 + 1)
  let area2 := (w2 + 1) * (h2 + 1)
  inter / (area1 + area2 - inter)

/-- Entry lemma for the batched IoU. -/
lemma compute_IoU_entry (A B : List Box) (i j : Nat)
    (hi : i < A.length) (hj : j < B.length) :
    (compute_IoU A B).data[i * B.length + j]? =
      some (compute_IoU_pair A[i] B[j]) :=
  pair_grid_getElem compute_IoU_pair A B i j hi hj

/-- The entry computed by the code equals the spec-side formula. -/
lemma compute_IoU_pair_eq_spec (a b : Box) :
    compute_IoU_pair a b = iouBatchedSpecPair a b := by
  simp only [compute_IoU_pair, iouBatchedSpecPair, tf_relu]
  rw [mul_comm (a.c3 + 1) (a.c2 + 1), mul_comm (b.c3 + 1) (b.c2 + 1)]
  ring_nf

/-- C4: every entry of `compute_IoU` follows the inclusive-pixel
(`+1`) extent and area convention with a rectified-linear clamp and an
unguarded division, exactly as the spec states it; this convention
really differs from the raw-difference host-numeric variant, e.g. on the
overlapping pair `(0,0,2,2)`, `(1,0,2,2)`. -/
theorem C4_compute_IoU_convention (A B : List Box) (i j : Nat)
    (hi : i < A.length) (hj : j < B.length) :
    (compute_IoU A B).data[i * B.length + j]? =
      some (iouBatchedSpecPair A[i] B[j]) ∧
    (compute_IoU A B).shape = [A.length, B.length] ∧
    compute_IoU_pair ⟨0, 0, 2, 2⟩ ⟨1, 0, 2, 2⟩ ≠
      iou_xyctrs_pair ⟨0, 0, 2, 2⟩ ⟨1, 0, 2, 2⟩ := by
  refine ⟨?_, rfl, ?_⟩
  · rw [compute_IoU_entry A B i j hi hj, compute_IoU_pair_eq_spec]
  · simp only [compute_IoU_pair, iou_xyctrs_pair, tf_relu, xy_w, xy_h,
      xy_x1, xy_x2, xy_y1, xy_y2, xy_inter, xy_area, xy_denom,
      max_def, min_def]
    norm_num

/-- Witness for C4 at a concrete input. -/
theorem C4_compute_IoU_convention_witness :
    (compute_IoU [⟨0, 0, 2, 2⟩] [⟨1, 0, 2, 2⟩]).data[0]? =
      some (iouBatchedSpecPair ⟨0, 0, 2, 2⟩ ⟨1, 0, 2, 2⟩) ∧
    (compute_IoU [⟨0, 0, 2, 2⟩] [⟨1, 0, 2, 2⟩]).shape = [1, 1] ∧
    compute_IoU_pair ⟨0, 0, 2, 2⟩ ⟨1, 0, 2, 2⟩ ≠
      iou_xyctrs_pair ⟨0, 0, 2, 2⟩ ⟨1, 0, 2, 2⟩ := by
  have h := C4_compute_IoU_convention [⟨0, 0, 2, 2⟩] [⟨1, 0, 2, 2⟩] 0 0
    (by norm_num) (by norm_num)
  simpa using h

/-! ## Anchor template generation: `generate_anchors` (rpn_utils.py
lines 66-93)

This function multiplies by `np.sqrt(r)`, so it is embedded over `ℝ`
(the float32 arithmetic idealised to exact real arithmetic, which is
what the spec's "up to floating-point tolerance" reading asks for). -/

/-- A box row with real coordinates. -/
structure BoxR where
  c0 : ℝ
  c1 : ℝ
  c2 : ℝ
  c3 : ℝ

/-- Python `int(x)`: truncation toward zero. -/
noncomputable def py_int (x : ℝ) : ℤ := if 0 ≤ x then ⌊x⌋ else ⌈x⌉

/-- `np.round`: round to nearest, ties to even (for a tie, the rounded
half-value doubled is the nearest even integer). -/
noncomputable def np_round (x : ℝ) : ℝ :=
  if Int.fract x = 1/2 then 2 * (round (x/2) : ℤ) else (round x : ℤ)

/-- `np.round` applied to all four columns of one row (line 92,
`final_anchors[i,j] = np.round(t)`). -/
noncomputable def np_round_box (b : BoxR) : BoxR :=
  ⟨np_round b.c0, np_round b.c1, np_round b.c2, np_round b.c3⟩

/-- The row `t` built for scale `s` and ratio `r` before the final
rounding (lines 79-91): `base_anchor = [int(base_size*0.5),
int(base_size*0.5), base_size, base_size]`, columns 2-3 multiplied by
`s`, then `t[2] *= np.sqrt(r)`, `t[3] *= 1./np.sqrt(r)`. -/
noncomputable def pre_anchor (base s r : ℝ) : BoxR :=
  { c0 := (py_int (base * (1/2)) : ℝ),
    c1 := (py_int (base * (1/2)) : ℝ),
    c2 := base * s * Real.sqrt r,
    c3 := base * s * (1 / Real.sqrt r) }

/-- `generate_anchors(base_size, ratios, scales)` (lines 66-93): one
rounded anchor per (scale, ratio) pair, filled into a
`(len(scales), len(ratios), 4)` array with scale as the outer loop and
ratio as the inner loop (lines 86-92), and reshaped to
`(len(ratios)*len(scales), 4)` in C order (line 93). -/
noncomputable def generate_anchors (base : ℝ) (ratios scales : List ℝ) :
    List BoxR :=
  (scales.map (fun s =>
    ratios.map (fun r => np_round_box (pre_anchor base s r)))).flatten

/-- `np.round` fixes integers. -/
lemma np_round_intCast (n : ℤ) : np_round (n : ℝ) = n := by
  rw [np_round, if_neg]
  · simp
  · rw [Int.fract_intCast]; norm_num

/-- Element access into `generate_anchors` at flat index
`i*len(ratios) + j`. -/
lemma generate_anchors_getElem (base : ℝ) (ratios scales : List ℝ)
    (i j : Nat) (hi : i < scales.length) (hj : j < ratios.length) :
    (generate_anchors base ratios scales)[i * ratios.length + j]? =
      some (np_round_box (pre_anchor base scales[i] ratios[j])) := by
  rw [generate_anchors,
    flatten_getElem_grid ratios.length _ i j
      (by intro x hx; rcases List.mem_map.mp hx with ⟨s, _, rfl⟩
          exact List.length_map ..)
      (by simpa using hi) hj]
  rw [List.getElem_map, List.getElem?_map]
  simp [hj]

/-- C5 (amended): `generate_anchors` returns exactly
`len(scales)*len(ratios)` boxes flattened scale-major / ratio-minor;
each box is centered at `(int(baseSize*0.5), int(baseSize*0.5))` — the
TRUNCATION of `baseSize/2`, which equals `baseSize/2` only when that is
an integer — and before rounding has `width*height = (scale*baseSize)²`
and `width = ratio * height` (width scaled by `√ratio`, height by
`1/√ratio`). -/
theorem C5_generate_anchors (base : ℝ) (ratios scales : List ℝ)
    (i j : Nat) (hr : ∀ r ∈ ratios, 0 < r)
    (hi : i < scales.length) (hj : j < ratios.length) :
    (generate_anchors base ratios scales).length =
      scales.length * ratios.length ∧
    (generate_anchors base ratios scales)[i * ratios.length + j]? =
      some (np_round_box (pre_anchor base scales[i] ratios[j])) ∧
    (np_round_box (pre_anchor base scales[i] ratios[j])).c0 =
      (py_int (base / 2) : ℝ) ∧
    (np_round_box (pre_anchor base scales[i] ratios[j])).c1 =
      (py_int (base / 2) : ℝ) ∧
    (pre_anchor base scales[i] ratios[j]).c2 *
      (pre_anchor base scales[i] ratios[j]).c3 =
      (scales[i] * base) ^ 2 ∧
    (pre_anchor base scales[i] ratios[j]).c2 =
      ratios[j] * (pre_anchor base scales[i] ratios[j]).c3 := by
  have hrj : 0 < ratios[j] := hr ratios[j] (List.getElem_mem hj)
  have hs : 0 < Real.sqrt ratios[j] := Real.sqrt_pos.mpr hrj
  have hhalf : base * (1/2) = base / 2 := by ring
  refine ⟨?_, generate_anchors_getElem base ratios scales i j hi hj,
    ?_, ?_, ?_, ?_⟩
  · rw [generate_anchors,
      flatten_length_const ratios.length _
        (by intro x hx; rcases List.mem_map.mp hx with ⟨s, _, rfl⟩
            exact List.length_map ..)]
    simp
  · simp only [np_round_box, pre_anchor, hhalf]
    exact np_round_intCast _
  · simp only [np_round_box, pre_anchor, hhalf]
    exact np_round_intCast _
  · simp only [pre_anchor]
    field_simp
    ring
  · simp only [pre_anchor]
    have h2 : Real.sqrt ratios[j] * Real.sqrt ratios[j] = ratios[j] :=
      Real.mul_self_sqrt hrj.le
    field_simp
    linear_combination (base * scales[i]) * h2

/-- Witness for C5 at the concrete input `base_size = 16`,
`ratios = [1, 2]`, `scales = [2]`, index `(0, 1)`. -/
theorem C5_generate_anchors_witness :
    (∀ r ∈ [(1 : ℝ), 2], 0 < r) ∧
    0 < ([(2 : ℝ)]).length ∧ 1 < ([(1 : ℝ), 2]).length ∧
    ((generate_anchors 16 [1, 2] [2]).length =
      ([(2 : ℝ)]).length * ([(1 : ℝ), 2]).length ∧
    (generate_anchors 16 [1, 2] [2])[0 * ([(1 : ℝ), 2]).length + 1]? =
      some (np_round_box (pre_anchor 16 ([(2 : ℝ)])[0] ([(1 : ℝ), 2])[1])) ∧
    (np_round_box (pre_anchor 16 ([(2 : ℝ)])[0] ([(1 : ℝ), 2])[1])).c0 =
      (py_int ((16 : ℝ) / 2) : ℝ) ∧
    (np_round_box (pre_anchor 16 ([(2 : ℝ)])[0] ([(1 : ℝ), 2])[1])).c1 =
      (py_int ((16 : ℝ) / 2) : ℝ) ∧
    (pre_anchor 16 ([(2 : ℝ)])[0] ([(1 : ℝ), 2])[1]).c2 *
      (pre_anchor 16 ([(2 : ℝ)])[0] ([(1 : ℝ), 2])[1]).c3 =
      (([(2 : ℝ)])[0] * 16) ^ 2 ∧
    (pre_anchor 16 ([(2 : ℝ)])[0] ([(1 : ℝ), 2])[1]).c2 =
      ([(1 : ℝ), 2])[1] *
        (pre_anchor 16 ([(2 : ℝ)])[0] ([(1 : ℝ), 2])[1]).c3) :=
  ⟨by norm_num, by norm_num, by norm_num,
   C5_generate_anchors 16 [1, 2] [2] 0 1 (by norm_num) (by norm_num)
     (by norm_num)⟩

/-- The claim's "centered at `(baseSize/2, baseSize/2)`" is false for an
odd base size: `generate_anchors(15, [1], [1])` produces a box centered
at `(7, 7)` (from `int(15*0.5) = 7`), not at `15/2 = 7.5`. -/
theorem C5_center_counterexample :
    (∃ b, (generate_anchors 15 [1] [1])[0]? = some b ∧ b.c0 = 7) ∧
    (7 : ℝ) ≠ 15 / 2 := by
  constructor
  · refine ⟨np_round_box (pre_anchor 15 ([(1 : ℝ)])[0] ([(1 : ℝ)])[0]), ?_, ?_⟩
    · have h := generate_anchors_getElem 15 [1] [1] 0 0
        (by norm_num) (by norm_num)
      simpa using h
    · have hpy : py_int ((15 : ℝ) * (1/2)) = 7 := by
        rw [py_int, if_pos (by norm_num)]
        rw [Int.floor_eq_iff] <;> norm_num
      simp only [np_round_box, pre_anchor]
      simp only [List.getElem_cons_zero, hpy]
      rw [np_round_intCast]
      norm_num
  · norm_num
